import Mathlib

/-!
Verification of the job-lifecycle core of `src/app.py`.

Shallow embedding of the single-file Flask download backend.  The global
registry `active_downloads` (a Python dict from download id to a mutable
`DownloadProgress` object) is modelled as an association list; the worker
thread `download_video_thread` is embedded as a sequence of atomic steps
(one `Step` per block of consecutive statements between suspension points),
guarded by the program position (`WPhase`) of the job's worker thread, and a
system run is a fold of steps over a `SysState`.  Python floats occurring in
the code (progress percentages, timestamps, byte counts) are modelled as
exact rationals `ℚ`; the filesystem is modelled as the list of paths that
currently exist.
-/

/-- Record `DownloadProgress` (src/app.py lines 25-36).  The field `size` is modelled
as the raw byte quantity `size_bytes` instead of the human-readable string
produced by `format_size` (presentation formatting of sizes is excluded from
the spec's scope, §1); `self.size = "0 MB"` becomes `size_bytes := some 0`. -/
structure DownloadProgress where
  status : String
  progress : ℚ
  message : String
  current_step : String
  file_path : Option String
  error : Option String
  title : String
  size_bytes : Option ℚ
  start_time : Option ℚ
deriving DecidableEq

/-- The field values assigned by `DownloadProgress.__init__` (lines 26-36). -/
def initProgress : DownloadProgress :=
  { status := "pending"
    progress := 0
    message := ""
    current_step := ""
    file_path := none
    error := none
    title := ""
    size_bytes := some 0
    start_time := none }

/-- The registry `active_downloads` (line 23): a dict from download id to
record, modelled as an association list. -/
abbrev Registry := List (String × DownloadProgress)

/-- Dict read: `active_downloads[i]` guarded by `i in active_downloads`. -/
def lookupD : Registry → String → Option DownloadProgress
  | [], _ => none
  | kv :: rest, id => if kv.1 = id then some kv.2 else lookupD rest id

/-- In-place mutation of the record stored under `id` (Python mutates the
`DownloadProgress` object through the dict); ids other than `id` are
untouched, a missing `id` makes this a no-op. -/
def dictUpd (id : String) (f : DownloadProgress → DownloadProgress) (reg : Registry) : Registry :=
  reg.map fun kv => if kv.1 = id then (kv.1, f kv.2) else kv

/-- Bindings whose key differs from `id`. -/
def keyNe (id : String) (kv : String × DownloadProgress) : Bool := decide (kv.1 ≠ id)

/-- Dict assignment `active_downloads[id] = v` (overwrites any old binding). -/
def dictInsert (id : String) (v : DownloadProgress) (reg : Registry) : Registry :=
  (id, v) :: reg.filter (keyNe id)

/-- Dict deletion `del active_downloads[id]`. -/
def dictRemove (id : String) (reg : Registry) : Registry :=
  reg.filter (keyNe id)

/-- Truthiness of an optional numeric value, as in `if d.get('total_bytes')`:
present and nonzero. -/
def truthy : Option ℚ → Bool
  | none => false
  | some x => decide (x ≠ 0)

/-- The status dict passed by the downloader to a progress hook: the fields
read by `download_progress_hook` (lines 235-249). -/
structure HookSample where
  status : String
  downloaded_bytes : Option ℚ
  total_bytes : Option ℚ
  total_bytes_estimate : Option ℚ
  speed : Option ℚ
deriving DecidableEq

/-- Effect of `download_progress_hook` (lines 228-257) on one record.  The
registry-membership guard of line 230 is applied by the caller (`applyStep`).
The transfer-rate message of line 251 embeds the numeric rate (`format_size`
presentation is out of the spec's scope). -/
def hookUpdate (d : HookSample) (p : DownloadProgress) : DownloadProgress :=
  if d.status = "downloading" then
    -- lines 236-237
    let p1 := { p with status := "downloading", current_step := "Downloading video" }
    -- lines 240-247
    let p2 :=
      if truthy d.total_bytes && truthy d.downloaded_bytes then
        let percent := (d.downloaded_bytes.getD 0 / d.total_bytes.getD 0) * 100
        { p1 with progress := min 90 percent
                  size_bytes := d.total_bytes }
      else if truthy d.total_bytes_estimate then
        let percent := (d.downloaded_bytes.getD 0 / d.total_bytes_estimate.getD 0) * 100
        { p1 with progress := min 90 percent
                  size_bytes := d.total_bytes_estimate }
      else p1
    -- lines 249-251
    if truthy d.speed then
      { p2 with message := "Speed: " ++ toString (d.speed.getD 0) ++ "/s" }
    else p2
  else if d.status = "finished" then
    -- lines 253-257
    { p with status := "processing"
             current_step := "Processing video"
             progress := 95
             message := "Download complete, finalizing..." }
  else p

/-- The record mutation performed by `cancel_download` (lines 470-471). -/
def cancelUpdate (p : DownloadProgress) : DownloadProgress :=
  { p with status := "cancelled", message := "Download cancelled" }

/-- Endpoint `cancel_download` (lines 465-474): the new registry together with whether
the id was found (`true` ↦ success response, `false` ↦ the 404 branch). -/
def cancel_download (reg : Registry) (id : String) : Registry × Bool :=
  match lookupD reg id with
  | some _ => (dictUpd id cancelUpdate reg, true)
  | none => (reg, false)

/-- Lines 263-267: the worker's first block of record updates (`t` is the
timestamp `datetime.now()`). -/
def initUpdate (t : ℚ) (p : DownloadProgress) : DownloadProgress :=
  { p with start_time := some t
           status := "starting"
           current_step := "Preparing download"
           message := "Initializing download..."
           progress := 5 }

/-- Lines 312-321: net effect of the updates surrounding the metadata fetch
inside the worker (`current_step`/`message`/`progress` are each written twice
back to back; the final values are the ones of lines 319-321, and line 317
stores the extracted title). -/
def fetchUpdate (title : String) (p : DownloadProgress) : DownloadProgress :=
  { p with current_step := "Starting download"
           message := "Beginning download process..."
           progress := 15
           title := title }

/-- Helper for `safe_title`: `re.sub(r'[-\s]+', '-', s)` replaces every
maximal run of hyphens/whitespace by a single hyphen; the flag records
whether the previous character belonged to such a run. -/
def collapseSeps : Bool → List Char → List Char
  | _, [] => []
  | prev, c :: cs =>
    if c = '-' || c.isWhitespace then
      if prev then collapseSeps true cs else '-' :: collapseSeps true cs
    else c :: collapseSeps false cs

/-- Python `str.strip()`: remove leading and trailing whitespace. -/
def stripChars (l : List Char) : List Char :=
  ((l.dropWhile Char.isWhitespace).reverse.dropWhile Char.isWhitespace).reverse

/-- Lines 334-335: the sanitised title.  Python's `\w`/`\s` classes are
modelled over their ASCII fragment (`isAlphanum`/underscore,
`isWhitespace`). -/
def safe_title (t : String) : String :=
  String.mk (collapseSeps false (stripChars (t.toList.filter
    fun c => c.isAlphanum || c = '_' || c.isWhitespace || c = '-')))

/-- Lines 336-337: `os.path.join(DOWNLOAD_FOLDER, f"{safe_title}_{id}.mp4")`
with `DOWNLOAD_FOLDER = 'downloads'`. -/
def final_path (title id : String) : String :=
  "downloads/" ++ safe_title title ++ "_" ++ id ++ ".mp4"

/-- The private temporary directory of line 270 (`tempfile.mkdtemp()`), one
per worker; the fresh random path is modelled as keyed by the job id, and the
directory together with any partial content in it is tracked as one disk
entry. -/
def tempDirPath (id : String) : String := "tmp/" ++ id

/-- Lines 343-348: the completion commit of the worker, executed
unconditionally once the transfer has returned (`path` is the final artifact
path computed at lines 334-337, `n` the byte size reported by
`os.path.getsize`). -/
def completeUpdate (path : String) (n : ℚ) (p : DownloadProgress) : DownloadProgress :=
  { p with status := "completed"
           progress := 100
           current_step := "Download complete"
           message := "Video ready for download"
           file_path := some path
           size_bytes := some n }

/-- Lines 353-357: the worker's exception handler. -/
def errorUpdate (e : String) (p : DownloadProgress) : DownloadProgress :=
  { p with status := "error", error := some e, message := "Error: " ++ e }

/-- Line 498's eviction test of the `cleanup` endpoint: `start_time` is set
and `now - start_time.timestamp() > 3600`. -/
def sweepEvict (now : ℚ) (p : DownloadProgress) : Bool :=
  match p.start_time with
  | some t => decide (now - t > 3600)
  | none => false

/-- Program position of one worker thread inside `download_video_thread`:
`idle` = no thread ever launched for this id, `spawned` = thread created at
line 404 but body not begun, `started` = past line 267, `hasTemp` = past the
`mkdtemp` of line 270, `downloading` = past the metadata fetch, transfer in
flight (progress hooks fire here), `finished` = body completed (either the
commit of lines 343-351 or the handler of lines 353-357 ran). -/
inductive WPhase
  | idle | spawned | started | hasTemp | downloading | finished
deriving DecidableEq

/-- Pointwise update of the worker-phase map. -/
def updFn (f : String → WPhase) (id : String) (w : WPhase) : String → WPhase :=
  fun j => if j = id then w else f j

/-- Global system state: the registry, the program position of each job's
worker thread, and the set of existing filesystem paths. -/
structure SysState where
  registry : Registry
  workers : String → WPhase
  disk : List String

/-- Lines 394-396 of `start_download`: the record is created and registered
(this happens before the thread is started at lines 399-404). -/
def start_download_register (reg : Registry) (id : String) : Registry :=
  dictInsert id initProgress reg

/-- One atomic block of source statements, interleavable with the other
threads.  Client-triggered steps (`submit`, `cancel`, `sweep`) may fire at
any time; worker steps are guarded by the worker's program position. -/
inductive Step
  /-- Endpoint `start_download` (lines 390-404): register a fresh record, spawn the
  worker thread. -/
  | submit (id : String)
  /-- Worker lines 262-267. -/
  | workerInit (id : String) (t : ℚ)
  /-- Worker line 270: `tempfile.mkdtemp()`. -/
  | mkTemp (id : String)
  /-- Worker lines 311-321: metadata fetched inside the download call. -/
  | fetchInfo (id : String) (title : String)
  /-- A progress callback from the transfer (lines 228-257), fired while
  `ydl.download` (line 324) is in flight. -/
  | hook (id : String) (d : HookSample)
  /-- Worker lines 326-351: the transfer returned successfully; find the
  file, move it to the durable folder, commit `completed`, remove the temp
  directory. -/
  | commitComplete (id : String) (n : ℚ)
  /-- Worker lines 353-357: an exception of message `e` was raised anywhere
  in the body; run the handler. -/
  | raiseError (id : String) (e : String)
  /-- Endpoint `cancel_download` (lines 465-474). -/
  | cancel (id : String)
  /-- The deferred cleanup closure of lines 361-370, firing 5 minutes after
  the worker body ends: delete the artifact file and the record. -/
  | expire (id : String)
  /-- The `cleanup` endpoint (lines 487-514) at current time `now`. -/
  | sweep (now : ℚ)
deriving DecidableEq

/-- Small-step semantics: the effect of one atomic block on the system
state.  A worker step whose program-position guard does not hold is not
enabled and leaves the state unchanged. -/
def applyStep (s : SysState) : Step → SysState
  | .submit id =>
    { registry := start_download_register s.registry id
      workers := updFn s.workers id .spawned
      disk := s.disk }
  | .workerInit id t =>
    if s.workers id = .spawned then
      { s with registry := dictUpd id (initUpdate t) s.registry
               workers := updFn s.workers id .started }
    else s
  | .mkTemp id =>
    if s.workers id = .started then
      { s with disk := tempDirPath id :: s.disk
               workers := updFn s.workers id .hasTemp }
    else s
  | .fetchInfo id title =>
    if s.workers id = .hasTemp then
      { s with registry := dictUpd id (fetchUpdate title) s.registry
               workers := updFn s.workers id .downloading }
    else s
  | .hook id d =>
    if s.workers id = .downloading then
      { s with registry := dictUpd id (hookUpdate d) s.registry }
    else s
  | .commitComplete id n =>
    if s.workers id = .downloading then
      match lookupD s.registry id with
      | some p =>
        { registry := dictUpd id (completeUpdate (final_path p.title id) n) s.registry
          workers := updFn s.workers id .finished
          disk := final_path p.title id :: s.disk.filter fun f => decide (f ≠ tempDirPath id) }
      | none => { s with workers := updFn s.workers id .finished }
    else s
  | .raiseError id e =>
    if s.workers id = .started ∨ s.workers id = .hasTemp ∨ s.workers id = .downloading then
      { s with registry := dictUpd id (errorUpdate e) s.registry
               workers := updFn s.workers id .finished }
    else s
  | .cancel id => { s with registry := (cancel_download s.registry id).1 }
  | .expire id =>
    if s.workers id = .finished then
      match lookupD s.registry id with
      | some p =>
        { s with registry := dictRemove id s.registry
                 disk := match p.file_path with
                         | some fp => s.disk.filter fun f => decide (f ≠ fp)
                         | none => s.disk }
      | none => s
    else s
  | .sweep now =>
    { s with registry := s.registry.filter fun kv => !sweepEvict now kv.2
             disk := s.disk.filter fun f =>
               !(s.registry.any fun kv => sweepEvict now kv.2 && decide (kv.2.file_path = some f)) }

/-- The system before any submission: empty registry, no worker threads, no
tracked files. -/
def initState : SysState := { registry := [], workers := fun _ => .idle, disk := [] }

/-- The snapshot returned by `get_progress` (lines 415-441).  The artifact
path is included in the response only when the status is `completed` or
`error` (lines 438-439); `file_path = none` models its absence from the JSON
object, `file_path = some fp` its presence with value `fp`. -/
structure ProgressData where
  status : String
  progress : ℚ
  message : String
  current_step : String
  title : String
  size_bytes : Option ℚ
  error : Option String
  download_id : String
  file_path : Option (Option String)
deriving DecidableEq

/-- Endpoint `get_progress` (lines 415-441): `none` models the 404 `not_found`
response. -/
def get_progress (reg : Registry) (id : String) : Option ProgressData :=
  match lookupD reg id with
  | none => none
  | some p =>
    some { status := p.status
           progress := p.progress
           message := p.message
           current_step := p.current_step
           title := p.title
           size_bytes := p.size_bytes
           error := p.error
           download_id := id
           file_path := if p.status = "completed" ∨ p.status = "error"
                        then some p.file_path else none }

/-- Function `get_video_info_with_retry` (lines 59-130): the loop over the three
configurations of `configs_to_try` (lines 62-91); `extract i` is the outcome
of attempting extraction under the i-th configuration (`.error` models a
raised exception).  On a failure at an attempt other than the last the loop
continues (lines 126-128); the failure of the final attempt is re-raised
verbatim (line 130). -/
def get_video_info_with_retry (extract : Nat → Except String String) : Except String String :=
  match extract 0 with
  | .ok info => .ok info
  | .error _ =>
    match extract 1 with
    | .ok info => .ok info
    | .error _ => extract 2

/-- The straight-line body of `download_video_thread` (lines 259-357) as its
step sequence: initialisation, temp-dir creation, metadata fetch, then a
single invocation of the transfer (line 324) — the body contains no retry
loop around `ydl.download`, so only `attempts 0` is ever consumed.  `.ok n`
leads to the completion commit (lines 326-351) with an artifact of `n`
bytes, `.error e` to the exception handler (lines 353-357). -/
def workerRunSteps (id title : String) (t : ℚ) (attempts : Nat → Except String ℚ) : List Step :=
  [Step.workerInit id t, Step.mkTemp id, Step.fetchInfo id title] ++
  (match attempts 0 with
   | .ok n => [Step.commitComplete id n]
   | .error e => [Step.raiseError id e])

/-- The terminal statuses of the job state machine. -/
def terminalStatus (st : String) : Prop :=
  st = "completed" ∨ st = "error" ∨ st = "cancelled"

instance (st : String) : Decidable (terminalStatus st) := by
  unfold terminalStatus; infer_instance

/-! ## Registry lemmas -/

@[simp] theorem lookupD_nil (j : String) : lookupD [] j = none := rfl

@[simp] theorem lookupD_cons (k : String) (v : DownloadProgress) (rest : Registry)
    (j : String) : lookupD ((k, v) :: rest) j = if k = j then some v else lookupD rest j := rfl

theorem lookupD_dictUpd (reg : Registry) (id j : String)
    (f : DownloadProgress → DownloadProgress) :
    lookupD (dictUpd id f reg) j = if j = id then (lookupD reg j).map f else lookupD reg j := by
  induction reg with
  | nil => simp [dictUpd]
  | cons kv rest ih =>
    obtain ⟨k, v⟩ := kv
    simp only [dictUpd, List.map_cons] at ih ⊢
    by_cases hk : k = id
    · subst hk
      by_cases hj : k = j
      · subst hj
        simp [ih]
      · simp [hj, ih]
    · by_cases hj : k = j
      · subst hj
        simp only [hk, if_false, lookupD_cons, if_pos rfl]
        simp
      · simp [hk, hj, ih]

theorem lookupD_filterKeyNe (reg : Registry) (id j : String) (h : j ≠ id) :
    lookupD (reg.filter (keyNe id)) j = lookupD reg j := by
  induction reg with
  | nil => rfl
  | cons kv rest ih =>
    obtain ⟨k, v⟩ := kv
    rw [List.filter_cons]
    by_cases hk : k = id
    · rw [if_neg (by simp [keyNe, hk])]
      rw [ih]
      have hkj : ¬(k = j) := fun hh => h (hh ▸ hk)
      rw [lookupD_cons, if_neg hkj]
    · rw [if_pos (by simp [keyNe, hk])]
      rw [lookupD_cons, lookupD_cons, ih]

theorem lookupD_dictInsert (reg : Registry) (id j : String) (v : DownloadProgress) :
    lookupD (dictInsert id v reg) j = if j = id then some v else lookupD reg j := by
  by_cases hj : j = id
  · subst hj
    simp [dictInsert]
  · have hij : ¬(id = j) := fun hh => hj hh.symm
    rw [dictInsert, lookupD_cons, if_neg hij, if_neg hj]
    exact lookupD_filterKeyNe reg id j hj

theorem lookupD_eq_none_filter (reg : Registry) (pred : String × DownloadProgress → Bool)
    (j : String) (h : lookupD reg j = none) : lookupD (reg.filter pred) j = none := by
  induction reg with
  | nil => rfl
  | cons kv rest ih =>
    obtain ⟨k, v⟩ := kv
    rw [List.filter_cons]
    by_cases hkj : k = j
    · simp [hkj] at h
    · simp only [lookupD_cons, hkj, if_false] at h
      by_cases hp : pred (k, v) <;> simp [hp, hkj, ih h]

theorem mem_of_lookupD (reg : Registry) (j : String) (p : DownloadProgress)
    (h : lookupD reg j = some p) : (j, p) ∈ reg := by
  induction reg with
  | nil => simp at h
  | cons kv rest ih =>
    obtain ⟨k, v⟩ := kv
    by_cases hkj : k = j
    · subst hkj
      simp only [lookupD_cons, if_pos rfl] at h
      obtain rfl : v = p := Option.some.inj h
      exact List.mem_cons_self (k, v) rest
    · simp only [lookupD_cons, hkj, if_false] at h
      exact List.mem_cons_of_mem (k, v) (ih h)

theorem lookupD_isSome_of_mem (reg : Registry) (j : String) (p : DownloadProgress)
    (h : (j, p) ∈ reg) : (lookupD reg j).isSome := by
  induction reg with
  | nil => simp at h
  | cons kv rest ih =>
    obtain ⟨k, v⟩ := kv
    rcases List.mem_cons.mp h with hkv | hrest
    · obtain ⟨rfl, rfl⟩ := Prod.mk.injEq .. ▸ hkv.symm
      simp
    · by_cases hkj : k = j <;> simp [hkj, ih hrest]

/-- Key uniqueness of a Python dict, carried as an explicit invariant of the
association-list model. -/
def keysNodup (reg : Registry) : Prop := (reg.map Prod.fst).Nodup

theorem keysNodup_nil : keysNodup [] := List.nodup_nil

theorem keysNodup_dictUpd (reg : Registry) (id : String)
    (f : DownloadProgress → DownloadProgress) (h : keysNodup reg) :
    keysNodup (dictUpd id f reg) := by
  have hkeys : (dictUpd id f reg).map Prod.fst = reg.map Prod.fst := by
    unfold dictUpd
    rw [List.map_map]
    apply List.map_congr_left
    intro kv _
    by_cases hk : kv.1 = id <;> simp [hk]
  unfold keysNodup
  rw [hkeys]
  exact h

theorem keysNodup_filter (reg : Registry) (pred : String × DownloadProgress → Bool)
    (h : keysNodup reg) : keysNodup (reg.filter pred) :=
  List.Nodup.sublist (List.Sublist.map Prod.fst (List.filter_sublist reg)) h

theorem keysNodup_dictInsert (reg : Registry) (id : String) (v : DownloadProgress)
    (h : keysNodup reg) : keysNodup (dictInsert id v reg) := by
  unfold keysNodup dictInsert
  rw [List.map_cons, List.nodup_cons]
  constructor
  · intro hmem
    rcases List.mem_map.mp hmem with ⟨kv, hkv, hfst⟩
    rcases List.mem_filter.mp hkv with ⟨_, hdec⟩
    have hne : kv.1 ≠ id := by
      simp [keyNe] at hdec
      exact hdec
    exact hne hfst
  · exact keysNodup_filter reg _ h

theorem lookupD_filter_of_nodup (reg : Registry) (pred : String × DownloadProgress → Bool)
    (j : String) (p : DownloadProgress) (hnd : keysNodup reg) (h : lookupD reg j = some p) :
    lookupD (reg.filter pred) j = if pred (j, p) then some p else none := by
  induction reg with
  | nil => simp at h
  | cons kv rest ih =>
    obtain ⟨k, v⟩ := kv
    have hnd' : keysNodup rest := (List.nodup_cons.mp hnd).2
    have hhead : k ∉ rest.map Prod.fst := (List.nodup_cons.mp hnd).1
    rw [List.filter_cons]
    by_cases hkj : k = j
    · subst hkj
      simp only [lookupD_cons, if_pos rfl] at h
      obtain rfl : v = p := Option.some.inj h
      have hrest : lookupD rest k = none := by
        cases hcase : lookupD rest k with
        | none => rfl
        | some q =>
          exact absurd (List.mem_map.mpr ⟨(k, q), mem_of_lookupD rest k q hcase, rfl⟩) hhead
      by_cases hp : pred (k, v)
      · simp [hp]
      · simp only [hp, Bool.false_eq_true, if_false]
        exact lookupD_eq_none_filter rest pred k hrest
    · simp only [lookupD_cons, hkj, if_false] at h
      by_cases hp : pred (k, v) <;> simp [hp, hkj, ih hnd' h]

/-! ## The metadata Retry Orchestrator -/

theorem retry_success (extract : Nat → Except String String) (k : Nat) (v : String)
    (hk : k < 3) (hfail : ∀ i, i < k → ∃ e, extract i = Except.error e)
    (hsucc : extract k = Except.ok v) :
    get_video_info_with_retry extract = Except.ok v := by
  interval_cases k
  · unfold get_video_info_with_retry
    rw [hsucc]
  · obtain ⟨e0, h0⟩ := hfail 0 (by norm_num)
    unfold get_video_info_with_retry
    rw [h0, hsucc]
  · obtain ⟨e0, h0⟩ := hfail 0 (by norm_num)
    obtain ⟨e1, h1⟩ := hfail 1 (by norm_num)
    unfold get_video_info_with_retry
    rw [h0, h1, hsucc]

theorem retry_last_error (extract : Nat → Except String String) (e0 e1 e2 : String)
    (h0 : extract 0 = Except.error e0) (h1 : extract 1 = Except.error e1)
    (h2 : extract 2 = Except.error e2) :
    get_video_info_with_retry extract = Except.error e2 := by
  unfold get_video_info_with_retry
  rw [h0, h1, h2]

/-! ## Lifecycle invariant

The record invariant couples each registered record with the program position
of its worker thread; it is preserved by every step and yields the reachable
states' relation between `status`, `progress` and `file_path`. -/

def InvRecord : WPhase → DownloadProgress → Prop
  | .idle, _ => False
  | .finished, p =>
    (p.status = "completed" ∨ p.status = "error" ∨ p.status = "cancelled") ∧
    (p.file_path ≠ none → p.progress = 100 ∧ (p.status = "completed" ∨ p.status = "cancelled")) ∧
    (p.status = "completed" → p.file_path ≠ none) ∧
    (p.progress = 100 → p.file_path ≠ none)
  | _, p => p.file_path = none ∧ p.progress ≤ 95 ∧ p.status ≠ "completed"

def InvState (s : SysState) : Prop :=
  ∀ kv ∈ s.registry, InvRecord (s.workers kv.1) kv.2

theorem hookUpdate_file_path (d : HookSample) (p : DownloadProgress) :
    (hookUpdate d p).file_path = p.file_path := by
  unfold hookUpdate
  split_ifs <;> rfl

theorem hookUpdate_status (d : HookSample) (p : DownloadProgress) :
    (hookUpdate d p).status = "downloading" ∨ (hookUpdate d p).status = "processing" ∨
    (hookUpdate d p).status = p.status := by
  unfold hookUpdate
  split_ifs <;> simp

theorem hookUpdate_progress (d : HookSample) (p : DownloadProgress) :
    (hookUpdate d p).progress ≤ 95 ∨ (hookUpdate d p).progress = p.progress := by
  have hmin : ∀ x : ℚ, min 90 x ≤ 95 := fun x => le_trans (min_le_left 90 x) (by norm_num)
  unfold hookUpdate
  split_ifs <;> simp [hmin]

theorem invRecord_cancelUpdate (w : WPhase) (p : DownloadProgress)
    (h : InvRecord w p) : InvRecord w (cancelUpdate p) := by
  cases w with
  | idle => exact h.elim
  | finished =>
    obtain ⟨hterm, hfp, hcomp, hpr⟩ := h
    refine ⟨Or.inr (Or.inr rfl), ?_, ?_, hpr⟩
    · intro hfp'
      exact ⟨(hfp hfp').1, Or.inr rfl⟩
    · intro hc
      exact absurd hc (by simp [cancelUpdate])
  | spawned => exact ⟨h.1, h.2.1, by simp [cancelUpdate]⟩
  | started => exact ⟨h.1, h.2.1, by simp [cancelUpdate]⟩
  | hasTemp => exact ⟨h.1, h.2.1, by simp [cancelUpdate]⟩
  | downloading => exact ⟨h.1, h.2.1, by simp [cancelUpdate]⟩

theorem invRecord_initUpdate (t : ℚ) (p : DownloadProgress)
    (h : InvRecord .spawned p) : InvRecord .started (initUpdate t p) :=
  ⟨h.1, show (5 : ℚ) ≤ 95 by norm_num, by simp [initUpdate]⟩

theorem invRecord_toHasTemp (p : DownloadProgress) (h : InvRecord .started p) :
    InvRecord .hasTemp p := h

theorem invRecord_fetchUpdate (title : String) (p : DownloadProgress)
    (h : InvRecord .hasTemp p) : InvRecord .downloading (fetchUpdate title p) :=
  ⟨h.1, show (15 : ℚ) ≤ 95 by norm_num, h.2.2⟩

theorem invRecord_hookUpdate (d : HookSample) (p : DownloadProgress)
    (h : InvRecord .downloading p) : InvRecord .downloading (hookUpdate d p) := by
  obtain ⟨hfp, hpr, hst⟩ := h
  refine ⟨?_, ?_, ?_⟩
  · rw [hookUpdate_file_path]
    exact hfp
  · rcases hookUpdate_progress d p with hh | hh
    · exact hh
    · rw [hh]
      exact hpr
  · rcases hookUpdate_status d p with hh | hh | hh <;> rw [hh]
    · decide
    · decide
    · exact hst

theorem invRecord_completeUpdate (path : String) (n : ℚ) (p : DownloadProgress) :
    InvRecord .finished (completeUpdate path n p) := by
  refine ⟨Or.inl rfl, fun _ => ⟨rfl, Or.inl rfl⟩, fun _ => ?_, fun _ => ?_⟩
  · simp [completeUpdate]
  · simp [completeUpdate]

theorem invRecord_errorUpdate (e : String) (w : WPhase) (p : DownloadProgress)
    (hw : w = .started ∨ w = .hasTemp ∨ w = .downloading)
    (h : InvRecord w p) : InvRecord .finished (errorUpdate e p) := by
  have h3 : p.file_path = none ∧ p.progress ≤ 95 ∧ p.status ≠ "completed" := by
    rcases hw with rfl | rfl | rfl <;> exact h
  refine ⟨Or.inr (Or.inl rfl), ?_, ?_, ?_⟩
  · intro hfp
    exact absurd h3.1 (by simpa [errorUpdate] using hfp)
  · intro hc
    exact absurd hc (by simp [errorUpdate])
  · intro hpr
    have hpr' : p.progress = 100 := hpr
    have : (100 : ℚ) ≤ 95 := hpr' ▸ h3.2.1
    exact absurd this (by norm_num)

theorem invState_updGen (s : SysState) (id : String)
    (f : DownloadProgress → DownloadProgress) (ws : String → WPhase) (dk : List String)
    (h : InvState s)
    (hf : ∀ p, InvRecord (s.workers id) p → InvRecord (ws id) (f p))
    (hother : ∀ j, j ≠ id → ws j = s.workers j) :
    InvState { registry := dictUpd id f s.registry, workers := ws, disk := dk } := by
  intro kv hmem
  simp only [dictUpd] at hmem
  rcases List.mem_map.mp hmem with ⟨kv0, hkv0, heq⟩
  by_cases hk : kv0.1 = id
  · rw [if_pos hk] at heq
    subst heq
    simp only
    rw [hk]
    have h0 : InvRecord (s.workers id) kv0.2 := by
      rw [← hk]
      exact h kv0 hkv0
    exact hf kv0.2 h0
  · rw [if_neg hk] at heq
    subst heq
    simp only
    rw [hother kv0.1 hk]
    exact h kv0 hkv0

theorem invState_phaseOnly (s : SysState) (id : String) (w' : WPhase) (dk : List String)
    (h : InvState s)
    (hf : ∀ p, InvRecord (s.workers id) p → InvRecord w' p) :
    InvState { registry := s.registry, workers := updFn s.workers id w', disk := dk } := by
  intro kv hmem
  simp only [updFn]
  by_cases hk : kv.1 = id
  · rw [if_pos hk]
    have h0 : InvRecord (s.workers id) kv.2 := by
      rw [← hk]
      exact h kv hmem
    exact hf kv.2 h0
  · rw [if_neg hk]
    exact h kv hmem

theorem invState_filterReg (s : SysState) (pred : String × DownloadProgress → Bool)
    (dk : List String) (h : InvState s) :
    InvState { registry := s.registry.filter pred, workers := s.workers, disk := dk } :=
  fun kv hmem => h kv (List.mem_filter.mp hmem).1

theorem invState_applyStep (s : SysState) (st : Step) (h : InvState s) :
    InvState (applyStep s st) := by
  cases st with
  | submit id =>
    intro kv hmem
    simp only [applyStep, start_download_register, dictInsert] at hmem ⊢
    rcases List.mem_cons.mp hmem with heq | hrest
    · subst heq
      simp only [updFn, if_pos rfl]
      exact ⟨rfl, show (0 : ℚ) ≤ 95 by norm_num, by simp [initProgress]⟩
    · rcases List.mem_filter.mp hrest with ⟨hmem0, hdec⟩
      have hne : kv.1 ≠ id := by
        simp [keyNe] at hdec
        exact hdec
      simp only [updFn]
      rw [if_neg hne]
      exact h kv hmem0
  | workerInit id t =>
    simp only [applyStep]
    by_cases hw : s.workers id = .spawned
    · rw [if_pos hw]
      refine invState_updGen s id _ _ _ h ?_ ?_
      · intro p hp
        rw [hw] at hp
        rw [updFn, if_pos rfl]
        exact invRecord_initUpdate t p hp
      · intro j hj
        rw [updFn, if_neg hj]
    · rw [if_neg hw]
      exact h
  | mkTemp id =>
    simp only [applyStep]
    by_cases hw : s.workers id = .started
    · rw [if_pos hw]
      refine invState_phaseOnly s id .hasTemp _ h ?_
      intro p hp
      rw [hw] at hp
      exact invRecord_toHasTemp p hp
    · rw [if_neg hw]
      exact h
  | fetchInfo id title =>
    simp only [applyStep]
    by_cases hw : s.workers id = .hasTemp
    · rw [if_pos hw]
      refine invState_updGen s id _ _ _ h ?_ ?_
      · intro p hp
        rw [hw] at hp
        rw [updFn, if_pos rfl]
        exact invRecord_fetchUpdate title p hp
      · intro j hj
        rw [updFn, if_neg hj]
    · rw [if_neg hw]
      exact h
  | hook id d =>
    simp only [applyStep]
    by_cases hw : s.workers id = .downloading
    · rw [if_pos hw]
      refine invState_updGen s id _ s.workers _ h ?_ ?_
      · intro p hp
        rw [hw] at hp ⊢
        exact invRecord_hookUpdate d p hp
      · intro j hj
        rfl
    · rw [if_neg hw]
      exact h
  | commitComplete id n =>
    simp only [applyStep]
    by_cases hw : s.workers id = .downloading
    · rw [if_pos hw]
      cases hl : lookupD s.registry id with
      | some p =>
        refine invState_updGen s id _ _ _ h ?_ ?_
        · intro q hq
          rw [updFn, if_pos rfl]
          exact invRecord_completeUpdate (final_path p.title id) n q
        · intro j hj
          rw [updFn, if_neg hj]
      | none =>
        intro kv hmem
        simp only [updFn]
        by_cases hk : kv.1 = id
        · exfalso
          have hsome : (lookupD s.registry id).isSome := by
            refine lookupD_isSome_of_mem s.registry id kv.2 ?_
            rw [← hk]
            exact hmem
          rw [hl] at hsome
          simp at hsome
        · rw [if_neg hk]
          exact h kv hmem
    · rw [if_neg hw]
      exact h
  | raiseError id e =>
    simp only [applyStep]
    by_cases hw : s.workers id = .started ∨ s.workers id = .hasTemp ∨
        s.workers id = .downloading
    · rw [if_pos hw]
      refine invState_updGen s id _ _ _ h ?_ ?_
      · intro p hp
        rw [updFn, if_pos rfl]
        exact invRecord_errorUpdate e (s.workers id) p hw hp
      · intro j hj
        rw [updFn, if_neg hj]
    · rw [if_neg hw]
      exact h
  | cancel id =>
    simp only [applyStep, cancel_download]
    cases hl : lookupD s.registry id with
    | some p =>
      simp only
      refine invState_updGen s id _ s.workers _ h ?_ ?_
      · intro q hq
        exact invRecord_cancelUpdate (s.workers id) q hq
      · intro j hj
        rfl
    | none =>
      simp only
      exact h
  | expire id =>
    simp only [applyStep]
    by_cases hw : s.workers id = .finished
    · rw [if_pos hw]
      cases hl : lookupD s.registry id with
      | some p => exact invState_filterReg s _ _ h
      | none => exact h
    · rw [if_neg hw]
      exact h
  | sweep now => exact invState_filterReg s _ _ h

theorem invState_initState : InvState initState := by
  intro kv hmem
  simp [initState] at hmem

theorem invState_foldl (steps : List Step) (s : SysState) (h : InvState s) :
    InvState (steps.foldl applyStep s) := by
  induction steps generalizing s with
  | nil => exact h
  | cons st rest ih => exact ih (applyStep s st) (invState_applyStep s st h)

/-! ## Preservation lemmas for the public-operation theorems -/

theorem lookupD_dictRemove_self (reg : Registry) (id : String) :
    lookupD (dictRemove id reg) id = none := by
  induction reg with
  | nil => rfl
  | cons kv rest ih =>
    obtain ⟨k, v⟩ := kv
    simp only [dictRemove, List.filter_cons] at ih ⊢
    by_cases hk : k = id
    · rw [if_neg (by simp [keyNe, hk])]
      exact ih
    · rw [if_pos (by simp [keyNe, hk])]
      rw [lookupD_cons, if_neg hk]
      exact ih

theorem keysNodup_applyStep (s : SysState) (st : Step) (h : keysNodup s.registry) :
    keysNodup (applyStep s st).registry := by
  cases st with
  | submit id => exact keysNodup_dictInsert s.registry id initProgress h
  | workerInit id t =>
    simp only [applyStep]
    by_cases hw : s.workers id = .spawned
    · rw [if_pos hw]
      exact keysNodup_dictUpd s.registry id _ h
    · rw [if_neg hw]
      exact h
  | mkTemp id =>
    simp only [applyStep]
    by_cases hw : s.workers id = .started
    · rw [if_pos hw]
      exact h
    · rw [if_neg hw]
      exact h
  | fetchInfo id title =>
    simp only [applyStep]
    by_cases hw : s.workers id = .hasTemp
    · rw [if_pos hw]
      exact keysNodup_dictUpd s.registry id _ h
    · rw [if_neg hw]
      exact h
  | hook id d =>
    simp only [applyStep]
    by_cases hw : s.workers id = .downloading
    · rw [if_pos hw]
      exact keysNodup_dictUpd s.registry id _ h
    · rw [if_neg hw]
      exact h
  | commitComplete id n =>
    simp only [applyStep]
    by_cases hw : s.workers id = .downloading
    · rw [if_pos hw]
      cases hl : lookupD s.registry id with
      | some p => exact keysNodup_dictUpd s.registry id _ h
      | none => exact h
    · rw [if_neg hw]
      exact h
  | raiseError id e =>
    simp only [applyStep]
    by_cases hw : s.workers id = .started ∨ s.workers id = .hasTemp ∨
        s.workers id = .downloading
    · rw [if_pos hw]
      exact keysNodup_dictUpd s.registry id _ h
    · rw [if_neg hw]
      exact h
  | cancel id =>
    simp only [applyStep, cancel_download]
    cases hl : lookupD s.registry id with
    | some p => exact keysNodup_dictUpd s.registry id _ h
    | none => exact h
  | expire id =>
    simp only [applyStep]
    by_cases hw : s.workers id = .finished
    · rw [if_pos hw]
      cases hl : lookupD s.registry id with
      | some p => exact keysNodup_filter s.registry _ h
      | none => exact h
    · rw [if_neg hw]
      exact h
  | sweep now => exact keysNodup_filter s.registry _ h

theorem workers_finished_applyStep (s : SysState) (st : Step) (id : String)
    (hne : st ≠ Step.submit id) (hw : s.workers id = .finished) :
    (applyStep s st).workers id = .finished := by
  cases st with
  | submit id' =>
    have hid : id' ≠ id := fun hh => hne (hh ▸ rfl)
    simp only [applyStep, updFn]
    rw [if_neg (fun hh : id = id' => hid hh.symm)]
    exact hw
  | workerInit id' t =>
    simp only [applyStep]
    by_cases hg : s.workers id' = .spawned
    · rw [if_pos hg]
      simp only [updFn]
      by_cases hid : id = id'
      · rw [hid] at hw
        rw [hw] at hg
        exact absurd hg (by simp)
      · rw [if_neg hid]
        exact hw
    · rw [if_neg hg]
      exact hw
  | mkTemp id' =>
    simp only [applyStep]
    by_cases hg : s.workers id' = .started
    · rw [if_pos hg]
      simp only [updFn]
      by_cases hid : id = id'
      · rw [hid] at hw
        rw [hw] at hg
        exact absurd hg (by simp)
      · rw [if_neg hid]
        exact hw
    · rw [if_neg hg]
      exact hw
  | fetchInfo id' title =>
    simp only [applyStep]
    by_cases hg : s.workers id' = .hasTemp
    · rw [if_pos hg]
      simp only [updFn]
      by_cases hid : id = id'
      · rw [hid] at hw
        rw [hw] at hg
        exact absurd hg (by simp)
      · rw [if_neg hid]
        exact hw
    · rw [if_neg hg]
      exact hw
  | hook id' d =>
    simp only [applyStep]
    by_cases hg : s.workers id' = .downloading
    · rw [if_pos hg]
      exact hw
    · rw [if_neg hg]
      exact hw
  | commitComplete id' n =>
    simp only [applyStep]
    by_cases hg : s.workers id' = .downloading
    · rw [if_pos hg]
      have hid : ¬(id = id') := by
        intro hh
        rw [hh] at hw
        rw [hw] at hg
        simp at hg
      cases hl : lookupD s.registry id' with
      | some p =>
        simp only [updFn]
        rw [if_neg hid]
        exact hw
      | none =>
        simp only [updFn]
        rw [if_neg hid]
        exact hw
    · rw [if_neg hg]
      exact hw
  | raiseError id' e =>
    simp only [applyStep]
    by_cases hg : s.workers id' = .started ∨ s.workers id' = .hasTemp ∨
        s.workers id' = .downloading
    · rw [if_pos hg]
      have hid : ¬(id = id') := by
        intro hh
        rw [hh] at hw
        rw [hw] at hg
        simp at hg
      simp only [updFn]
      rw [if_neg hid]
      exact hw
    · rw [if_neg hg]
      exact hw
  | cancel id' =>
    simp only [applyStep]
    exact hw
  | expire id' =>
    simp only [applyStep]
    by_cases hg : s.workers id' = .finished
    · rw [if_pos hg]
      cases hl : lookupD s.registry id' with
      | some p => exact hw
      | none => exact hw
    · rw [if_neg hg]
      exact hw
  | sweep now =>
    simp only [applyStep]
    exact hw

theorem terminal_lookup_applyStep (s : SysState) (st : Step) (id : String)
    (hne : st ≠ Step.submit id) (hw : s.workers id = .finished)
    (hnd : keysNodup s.registry)
    (h : lookupD s.registry id = none ∨
      ∃ q, lookupD s.registry id = some q ∧ terminalStatus q.status) :
    lookupD (applyStep s st).registry id = none ∨
      ∃ q, lookupD (applyStep s st).registry id = some q ∧ terminalStatus q.status := by
  cases st with
  | submit id' =>
    have hid : id ≠ id' := fun hh => hne (hh ▸ rfl)
    simp only [applyStep, start_download_register]
    rw [lookupD_dictInsert s.registry id' id initProgress, if_neg hid]
    exact h
  | workerInit id' t =>
    simp only [applyStep]
    by_cases hg : s.workers id' = .spawned
    · have hid : ¬(id = id') := by
        intro hh
        rw [hh] at hw
        rw [hw] at hg
        simp at hg
      rw [if_pos hg]
      simp only
      rw [lookupD_dictUpd s.registry id' id _, if_neg hid]
      exact h
    · rw [if_neg hg]
      exact h
  | mkTemp id' =>
    simp only [applyStep]
    by_cases hg : s.workers id' = .started
    · rw [if_pos hg]
      exact h
    · rw [if_neg hg]
      exact h
  | fetchInfo id' title =>
    simp only [applyStep]
    by_cases hg : s.workers id' = .hasTemp
    · have hid : ¬(id = id') := by
        intro hh
        rw [hh] at hw
        rw [hw] at hg
        simp at hg
      rw [if_pos hg]
      simp only
      rw [lookupD_dictUpd s.registry id' id _, if_neg hid]
      exact h
    · rw [if_neg hg]
      exact h
  | hook id' d =>
    simp only [applyStep]
    by_cases hg : s.workers id' = .downloading
    · have hid : ¬(id = id') := by
        intro hh
        rw [hh] at hw
        rw [hw] at hg
        simp at hg
      rw [if_pos hg]
      simp only
      rw [lookupD_dictUpd s.registry id' id _, if_neg hid]
      exact h
    · rw [if_neg hg]
      exact h
  | commitComplete id' n =>
    simp only [applyStep]
    by_cases hg : s.workers id' = .downloading
    · have hid : ¬(id = id') := by
        intro hh
        rw [hh] at hw
        rw [hw] at hg
        simp at hg
      rw [if_pos hg]
      cases hl : lookupD s.registry id' with
      | some p =>
        simp only
        rw [lookupD_dictUpd s.registry id' id _, if_neg hid]
        exact h
      | none => exact h
    · rw [if_neg hg]
      exact h
  | raiseError id' e =>
    simp only [applyStep]
    by_cases hg : s.workers id' = .started ∨ s.workers id' = .hasTemp ∨
        s.workers id' = .downloading
    · have hid : ¬(id = id') := by
        intro hh
        rw [hh] at hw
        rw [hw] at hg
        simp at hg
      rw [if_pos hg]
      simp only
      rw [lookupD_dictUpd s.registry id' id _, if_neg hid]
      exact h
    · rw [if_neg hg]
      exact h
  | cancel id' =>
    simp only [applyStep, cancel_download]
    cases hl : lookupD s.registry id' with
    | some p =>
      simp only
      rw [lookupD_dictUpd s.registry id' id cancelUpdate]
      by_cases hid : id = id'
      · rcases h with hnone | ⟨q, hq, hterm⟩
        · left
          rw [if_pos hid, hnone]
          rfl
        · right
          refine ⟨cancelUpdate q, ?_, Or.inr (Or.inr rfl)⟩
          rw [if_pos hid, hq]
          rfl
      · rw [if_neg hid]
        exact h
    | none =>
      simp only
      exact h
  | expire id' =>
    simp only [applyStep]
    by_cases hg : s.workers id' = .finished
    · rw [if_pos hg]
      cases hl : lookupD s.registry id' with
      | some p =>
        simp only
        by_cases hid : id = id'
        · left
          rw [hid]
          exact lookupD_dictRemove_self s.registry id'
        · rw [show dictRemove id' s.registry = s.registry.filter (keyNe id') from rfl]
          rw [lookupD_filterKeyNe s.registry id' id hid]
          exact h
      | none => exact h
    · rw [if_neg hg]
      exact h
  | sweep now =>
    simp only [applyStep]
    rcases h with hnone | ⟨q, hq, hterm⟩
    · left
      exact lookupD_eq_none_filter s.registry _ id hnone
    · rw [lookupD_filter_of_nodup s.registry _ id q hnd hq]
      by_cases hp : (!sweepEvict now q) = true
      · right
        refine ⟨q, ?_, hterm⟩
        rw [if_pos hp]
      · left
        rw [if_neg hp]

theorem isSome_lookup_applyStep (s : SysState) (st : Step) (id : String)
    (hne1 : st ≠ Step.expire id) (hne2 : ∀ q : ℚ, st ≠ Step.sweep q)
    (h : (lookupD s.registry id).isSome) :
    (lookupD (applyStep s st).registry id).isSome := by
  cases st with
  | submit id' =>
    simp only [applyStep, start_download_register]
    rw [lookupD_dictInsert s.registry id' id initProgress]
    by_cases hid : id = id'
    · rw [if_pos hid]
      rfl
    · rw [if_neg hid]
      exact h
  | workerInit id' t =>
    simp only [applyStep]
    by_cases hg : s.workers id' = .spawned
    · rw [if_pos hg]
      simp only
      rw [lookupD_dictUpd s.registry id' id _]
      by_cases hid : id = id'
      · rw [if_pos hid]
        obtain ⟨r, hr⟩ := Option.isSome_iff_exists.mp (hid ▸ h)
        rw [hid, hr]
        rfl
      · rw [if_neg hid]
        exact h
    · rw [if_neg hg]
      exact h
  | mkTemp id' =>
    simp only [applyStep]
    by_cases hg : s.workers id' = .started
    · rw [if_pos hg]
      exact h
    · rw [if_neg hg]
      exact h
  | fetchInfo id' title =>
    simp only [applyStep]
    by_cases hg : s.workers id' = .hasTemp
    · rw [if_pos hg]
      simp only
      rw [lookupD_dictUpd s.registry id' id _]
      by_cases hid : id = id'
      · rw [if_pos hid]
        obtain ⟨r, hr⟩ := Option.isSome_iff_exists.mp (hid ▸ h)
        rw [hid, hr]
        rfl
      · rw [if_neg hid]
        exact h
    · rw [if_neg hg]
      exact h
  | hook id' d =>
    simp only [applyStep]
    by_cases hg : s.workers id' = .downloading
    · rw [if_pos hg]
      simp only
      rw [lookupD_dictUpd s.registry id' id _]
      by_cases hid : id = id'
      · rw [if_pos hid]
        obtain ⟨r, hr⟩ := Option.isSome_iff_exists.mp (hid ▸ h)
        rw [hid, hr]
        rfl
      · rw [if_neg hid]
        exact h
    · rw [if_neg hg]
      exact h
  | commitComplete id' n =>
    simp only [applyStep]
    by_cases hg : s.workers id' = .downloading
    · rw [if_pos hg]
      cases hl : lookupD s.registry id' with
      | some p =>
        simp only
        rw [lookupD_dictUpd s.registry id' id _]
        by_cases hid : id = id'
        · rw [if_pos hid]
          obtain ⟨r, hr⟩ := Option.isSome_iff_exists.mp (hid ▸ h)
          rw [hid, hr]
          rfl
        · rw [if_neg hid]
          exact h
      | none => exact h
    · rw [if_neg hg]
      exact h
  | raiseError id' e =>
    simp only [applyStep]
    by_cases hg : s.workers id' = .started ∨ s.workers id' = .hasTemp ∨
        s.workers id' = .downloading
    · rw [if_pos hg]
      simp only
      rw [lookupD_dictUpd s.registry id' id _]
      by_cases hid : id = id'
      · rw [if_pos hid]
        obtain ⟨r, hr⟩ := Option.isSome_iff_exists.mp (hid ▸ h)
        rw [hid, hr]
        rfl
      · rw [if_neg hid]
        exact h
    · rw [if_neg hg]
      exact h
  | cancel id' =>
    simp only [applyStep, cancel_download]
    cases hl : lookupD s.registry id' with
    | some p =>
      simp only
      rw [lookupD_dictUpd s.registry id' id cancelUpdate]
      by_cases hid : id = id'
      · rw [if_pos hid]
        obtain ⟨r, hr⟩ := Option.isSome_iff_exists.mp (hid ▸ h)
        rw [hid, hr]
        rfl
      · rw [if_neg hid]
        exact h
    | none =>
      simp only
      exact h
  | expire id' =>
    have hid : id ≠ id' := fun hh => hne1 (hh ▸ rfl)
    simp only [applyStep]
    by_cases hg : s.workers id' = .finished
    · rw [if_pos hg]
      cases hl : lookupD s.registry id' with
      | some p =>
        simp only
        rw [show dictRemove id' s.registry = s.registry.filter (keyNe id') from rfl]
        rw [lookupD_filterKeyNe s.registry id' id hid]
        exact h
      | none => exact h
    · rw [if_neg hg]
      exact h
  | sweep now => exact absurd rfl (hne2 now)

theorem terminalKept_foldl (steps : List Step) (s : SysState) (id : String)
    (hns : ∀ st ∈ steps, st ≠ Step.submit id)
    (hw : s.workers id = .finished) (hnd : keysNodup s.registry)
    (h : lookupD s.registry id = none ∨
      ∃ q, lookupD s.registry id = some q ∧ terminalStatus q.status) :
    lookupD ((steps.foldl applyStep s).registry) id = none ∨
      ∃ q, lookupD ((steps.foldl applyStep s).registry) id = some q ∧
        terminalStatus q.status := by
  induction steps generalizing s with
  | nil => exact h
  | cons st rest ih =>
    have hst := hns st (List.mem_cons_self st rest)
    exact ih (applyStep s st) (fun st2 hst2 => hns st2 (List.mem_cons_of_mem st hst2))
      (workers_finished_applyStep s st id hst hw)
      (keysNodup_applyStep s st hnd)
      (terminal_lookup_applyStep s st id hst hw hnd h)

theorem isSome_lookup_foldl (steps : List Step) (s : SysState) (id : String)
    (hok : ∀ st ∈ steps, st ≠ Step.expire id ∧ ∀ q : ℚ, st ≠ Step.sweep q)
    (h : (lookupD s.registry id).isSome) :
    (lookupD ((steps.foldl applyStep s).registry) id).isSome := by
  induction steps generalizing s with
  | nil => exact h
  | cons st rest ih =>
    obtain ⟨h1, h2⟩ := hok st (List.mem_cons_self st rest)
    exact ih (applyStep s st) (fun st2 hst2 => hok st2 (List.mem_cons_of_mem st hst2))
      (isSome_lookup_applyStep s st id h1 h2 h)

/-! ## Claims -/

/-- C6: for the metadata-fetch Retry Orchestrator (`get_video_info_with_retry`),
an operation failing on the first `k` attempts and succeeding on attempt
`k + 1` with `k < 3` yields the success result and no error, and an
operation failing on all three attempts propagates exactly the last
attempt's error, the intermediate errors being swallowed. -/
theorem c6_retry_orchestrator :
    (∀ (extract : Nat → Except String String) (k : Nat) (v : String),
      k < 3 → (∀ i, i < k → ∃ e, extract i = Except.error e) →
      extract k = Except.ok v →
      get_video_info_with_retry extract = Except.ok v) ∧
    (∀ (extract : Nat → Except String String) (e0 e1 e2 : String),
      extract 0 = Except.error e0 → extract 1 = Except.error e1 →
      extract 2 = Except.error e2 →
      get_video_info_with_retry extract = Except.error e2) :=
  ⟨retry_success, retry_last_error⟩

def c6ExtractA : Nat → Except String String := fun i =>
  if i = 0 then Except.error "blocked 0" else Except.ok "info"

def c6ExtractB : Nat → Except String String := fun i =>
  if i = 0 then Except.error "err 0"
  else if i = 1 then Except.error "err 1"
  else Except.error "err 2"

/-- Witness for C6 at two concrete operations: one that fails once then
succeeds, one that fails on all three attempts. -/
theorem c6_retry_witness :
    get_video_info_with_retry c6ExtractA = Except.ok "info" ∧
    get_video_info_with_retry c6ExtractB = Except.error "err 2" :=
  ⟨c6_retry_orchestrator.1 c6ExtractA 1 "info" (by norm_num)
      (fun i hi => ⟨"blocked 0", by interval_cases i; rfl⟩) rfl,
   c6_retry_orchestrator.2 c6ExtractB "err 0" "err 1" "err 2" rfl rfl rfl⟩

/-- C9 (amended): `cleanup` evicts exactly the records whose `start_time` is
set and lies more than 3600 seconds before `now` — the test of line 498 uses
the job's start timestamp, not a terminal timestamp, and does not look at the
job's state at all; every other record is left untouched in the registry. -/
theorem c9_sweep_characterization (s : SysState) (now : ℚ)
    (kv : String × DownloadProgress) :
    kv ∈ (applyStep s (Step.sweep now)).registry ↔
      kv ∈ s.registry ∧ sweepEvict now kv.2 = false := by
  simp only [applyStep, List.mem_filter, Bool.not_eq_true']

def c9Trace : List Step :=
  [Step.submit "j", Step.workerInit "j" 0, Step.mkTemp "j", Step.fetchInfo "j" "T"]

/-- C9 counterexample: a job whose worker started at time 0 and is still
non-terminal (status `starting`) is evicted by a `cleanup` sweep at time
4000, because the eviction test of line 498 compares the job's *start*
timestamp (not a terminal timestamp) against the 1-hour threshold and
ignores the job's state; the claim that every evicted job is in a terminal
state is therefore false. -/
theorem c9_sweep_counterexample :
    Option.map (fun p : DownloadProgress => p.status)
      (lookupD ((c9Trace.foldl applyStep initState).registry) "j") = some "starting" ∧
    ¬terminalStatus "starting" ∧
    lookupD (((c9Trace ++ [Step.sweep 4000]).foldl applyStep initState).registry) "j"
      = none := by
  refine ⟨by decide, by decide, ?_⟩
  simp [c9Trace, applyStep, initState, start_download_register, dictInsert, dictUpd,
    lookupD, updFn, initUpdate, fetchUpdate, initProgress, sweepEvict, keyNe]
  norm_num [lookupD]

theorem applyStep_cancel_of_some (s : SysState) (id : String) (p : DownloadProgress)
    (hp : lookupD s.registry id = some p) :
    applyStep s (Step.cancel id)
      = { s with registry := dictUpd id cancelUpdate s.registry } := by
  simp only [applyStep, cancel_download, hp]

theorem applyStep_commit_of_some (s : SysState) (id : String) (p : DownloadProgress)
    (n : ℚ) (hw : s.workers id = .downloading) (hp : lookupD s.registry id = some p) :
    applyStep s (Step.commitComplete id n) =
      { registry := dictUpd id (completeUpdate (final_path p.title id) n) s.registry
        workers := updFn s.workers id .finished
        disk := final_path p.title id :: s.disk.filter fun f => decide (f ≠ tempDirPath id) } := by
  simp only [applyStep, hw, hp, if_true]

/-- C1 (amended): no cancellation marker is checked before the `completed`
commit.  If `cancel_download` marks a record `cancelled` while the transfer
is in flight and the transfer then succeeds, the worker's commit (lines
343-348) unconditionally overwrites the record: the final state is
`completed`, not `cancelled`, and the artifact file is placed in the
durable downloads folder and remains on disk. -/
theorem c1_cancel_race_overwrites (s : SysState) (id : String) (p : DownloadProgress)
    (n : ℚ) (hw : s.workers id = .downloading) (hp : lookupD s.registry id = some p) :
    lookupD (applyStep (applyStep s (Step.cancel id))
        (Step.commitComplete id n)).registry id
      = some (completeUpdate (final_path p.title id) n (cancelUpdate p)) ∧
    (completeUpdate (final_path p.title id) n (cancelUpdate p)).status = "completed" ∧
    final_path p.title id ∈
      (applyStep (applyStep s (Step.cancel id)) (Step.commitComplete id n)).disk := by
  rw [applyStep_cancel_of_some s id p hp]
  have hw1 : ({ s with registry := dictUpd id cancelUpdate s.registry } : SysState).workers id
      = .downloading := hw
  have hp1 : lookupD ({ s with registry := dictUpd id cancelUpdate s.registry }
      : SysState).registry id = some (cancelUpdate p) := by
    show lookupD (dictUpd id cancelUpdate s.registry) id = _
    rw [lookupD_dictUpd, if_pos rfl, hp]
    rfl
  rw [applyStep_commit_of_some _ id (cancelUpdate p) n hw1 hp1]
  refine ⟨?_, rfl, ?_⟩
  · show lookupD (dictUpd id (completeUpdate (final_path (cancelUpdate p).title id) n)
      (dictUpd id cancelUpdate s.registry)) id = _
    rw [lookupD_dictUpd, if_pos rfl, hp1]
    rfl
  · exact List.mem_cons_self _ _

def c1Hook : HookSample :=
  { status := "downloading"
    downloaded_bytes := some 50
    total_bytes := some 100
    total_bytes_estimate := none
    speed := none }

def c1TracePre : List Step :=
  [Step.submit "j", Step.workerInit "j" 0, Step.mkTemp "j", Step.fetchInfo "j" "T",
   Step.hook "j" c1Hook]

def c1TraceFull : List Step :=
  c1TracePre ++ [Step.cancel "j", Step.commitComplete "j" 1000]

/-- C1 counterexample: a run in which `cancel_download` fires while the job's
state is `downloading` and the transfer then reports success.  The job's
final state is `completed` (not `cancelled`) and the artifact file
`downloads/T_j.mp4` remains on disk — the Worker commits `completed` without
checking any cancellation marker, contradicting the claim. -/
theorem c1_cancel_race_counterexample :
    Option.map (fun p : DownloadProgress => p.status)
      (lookupD ((c1TracePre.foldl applyStep initState).registry) "j")
      = some "downloading" ∧
    Option.map (fun p : DownloadProgress => (p.status, p.file_path))
      (lookupD ((c1TraceFull.foldl applyStep initState).registry) "j")
      = some ("completed", some "downloads/T_j.mp4") ∧
    ("completed" : String) ≠ "cancelled" ∧
    "downloads/T_j.mp4" ∈ (c1TraceFull.foldl applyStep initState).disk :=
  ⟨by decide, by decide, by decide, by decide⟩

def c1WitnessState : SysState :=
  [Step.submit "j", Step.workerInit "j" 0, Step.mkTemp "j",
   Step.fetchInfo "j" "T"].foldl applyStep initState

def c1WitnessRecord : DownloadProgress :=
  fetchUpdate "T" (initUpdate 0 initProgress)

/-- Witness for C1 (amended) at a concrete reachable state whose transfer is
in flight. -/
theorem c1_cancel_race_witness :
    c1WitnessState.workers "j" = WPhase.downloading ∧
    lookupD c1WitnessState.registry "j" = some c1WitnessRecord ∧
    lookupD (applyStep (applyStep c1WitnessState (Step.cancel "j"))
        (Step.commitComplete "j" 1000)).registry "j"
      = some (completeUpdate (final_path c1WitnessRecord.title "j") 1000
          (cancelUpdate c1WitnessRecord)) ∧
    final_path c1WitnessRecord.title "j" ∈
      (applyStep (applyStep c1WitnessState (Step.cancel "j"))
        (Step.commitComplete "j" 1000)).disk :=
  ⟨by decide, by decide,
   (c1_cancel_race_overwrites c1WitnessState "j" c1WitnessRecord 1000
     (by decide) (by decide)).1,
   (c1_cancel_race_overwrites c1WitnessState "j" c1WitnessRecord 1000
     (by decide) (by decide)).2.2⟩

instance (reg : Registry) : Decidable (keysNodup reg) := by
  unfold keysNodup
  infer_instance

theorem get_progress_eq_some (reg : Registry) (id : String) (q : DownloadProgress)
    (hq : lookupD reg id = some q) :
    get_progress reg id = some
      { status := q.status
        progress := q.progress
        message := q.message
        current_step := q.current_step
        title := q.title
        size_bytes := q.size_bytes
        error := q.error
        download_id := id
        file_path := if q.status = "completed" ∨ q.status = "error"
                     then some q.file_path else none } := by
  simp only [get_progress, hq]

def c2Trace : List Step :=
  [Step.submit "j", Step.workerInit "j" 0, Step.mkTemp "j", Step.fetchInfo "j" "T",
   Step.commitComplete "j" 777]

/-- C2 counterexample: lines 470-471 of `cancel_download` overwrite even a
terminal record.  After a job reaches the terminal state `completed`, a
subsequent `CancelJob` changes its state to `cancelled` and its message to
`Download cancelled`, so later `GetProgress` reads do not return the original
terminal state and message, contradicting the claim. -/
theorem c2_terminal_counterexample :
    Option.map (fun pd : ProgressData => (pd.status, pd.message))
      (get_progress ((c2Trace.foldl applyStep initState).registry) "j")
      = some ("completed", "Video ready for download") ∧
    Option.map (fun pd : ProgressData => (pd.status, pd.message))
      (get_progress (((c2Trace ++ [Step.cancel "j"]).foldl applyStep initState).registry) "j")
      = some ("cancelled", "Download cancelled") ∧
    (("cancelled", "Download cancelled") : String × String)
      ≠ ("completed", "Video ready for download") :=
  ⟨by decide, by decide, by decide⟩

/-- C2 (amended): after the worker thread has finished, a terminal record
stays terminal under every later operation — but not unchanged: the only
mutation, `cancel_download`, rewrites the state to `cancelled` (and the
message to `Download cancelled`); `get_progress` itself performs no
mutation, and the record may also disappear through expiry or a sweep.  So
every later `GetProgress` call returns `NotFound` or some terminal state,
not necessarily the original one. -/
theorem c2_terminal_after_worker (s : SysState) (id : String) (p : DownloadProgress)
    (steps : List Step) (hnd : keysNodup s.registry) (hw : s.workers id = .finished)
    (hp : lookupD s.registry id = some p) (ht : terminalStatus p.status)
    (hns : ∀ st ∈ steps, st ≠ Step.submit id) :
    get_progress ((steps.foldl applyStep s).registry) id = none ∨
      ∃ pd, get_progress ((steps.foldl applyStep s).registry) id = some pd ∧
        terminalStatus pd.status := by
  rcases terminalKept_foldl steps s id hns hw hnd (Or.inr ⟨p, hp, ht⟩) with hnone | ⟨q, hq, hterm⟩
  · left
    simp only [get_progress, hnone]
  · right
    exact ⟨_, get_progress_eq_some _ id q hq, hterm⟩

def c2State : SysState := c2Trace.foldl applyStep initState

def c2Record : DownloadProgress :=
  completeUpdate (final_path "T" "j") 777 (fetchUpdate "T" (initUpdate 0 initProgress))

/-- Witness for C2 (amended): the completed job of `c2Trace` stays terminal
under a subsequent `CancelJob`. -/
theorem c2_terminal_witness :
    terminalStatus c2Record.status ∧
    (get_progress ((([Step.cancel "j"]).foldl applyStep c2State).registry) "j" = none ∨
      ∃ pd, get_progress ((([Step.cancel "j"]).foldl applyStep c2State).registry) "j"
          = some pd ∧ terminalStatus pd.status) :=
  ⟨by decide,
   c2_terminal_after_worker c2State "j" c2Record [Step.cancel "j"]
     (by decide) (by decide) (by decide) (by decide)
     (by decide)⟩

def c3Hook80 : HookSample :=
  { status := "downloading"
    downloaded_bytes := some 80
    total_bytes := some 100
    total_bytes_estimate := none
    speed := none }

def c3Hook10 : HookSample :=
  { status := "downloading"
    downloaded_bytes := some 10
    total_bytes := some 100
    total_bytes_estimate := none
    speed := none }

def c3TracePre : List Step :=
  [Step.submit "j", Step.workerInit "j" 0, Step.mkTemp "j", Step.fetchInfo "j" "T",
   Step.hook "j" c3Hook80]

/-- C3 counterexample: the progress hook stores `min(90, percent)` without
comparing against the record's current value (lines 241-242), so when the
raw transfer samples regress (here 80 of 100 bytes, then 10 of 100 bytes,
as happens when the downloader restarts a transfer), the stored percentage
drops from 80 to 10 — the stored progress is not non-decreasing and no
clamping to the stored value takes place, contradicting the claim. -/
theorem c3_progress_counterexample :
    Option.map (fun p : DownloadProgress => p.progress)
      (lookupD ((c3TracePre.foldl applyStep initState).registry) "j") = some 80 ∧
    Option.map (fun p : DownloadProgress => p.progress)
      (lookupD (((c3TracePre ++ [Step.hook "j" c3Hook10]).foldl applyStep
        initState).registry) "j") = some 10 ∧
    (10 : ℚ) < 80 := by
  refine ⟨?_, ?_, by norm_num⟩
  · simp [c3TracePre, c3Hook80, applyStep, initState, start_download_register, dictInsert,
      dictUpd, lookupD, updFn, initUpdate, fetchUpdate, hookUpdate, truthy, initProgress,
      keyNe]
    norm_num
  · simp [c3TracePre, c3Hook80, c3Hook10, applyStep, initState, start_download_register,
      dictInsert, dictUpd, lookupD, updFn, initUpdate, fetchUpdate, hookUpdate, truthy,
      initProgress, keyNe]
    norm_num

/-- C3 (amended): the Progress Aggregator is not monotonic and performs no
clamping against the stored percentage.  On a `downloading` sample with a
truthy byte total it stores `min 90 (downloaded / total * 100)` regardless
of the previously stored value (which may therefore decrease when samples
regress); only when no total and no estimate is truthy is the stored
percentage left unchanged; a `finished` sample stores 95
unconditionally. -/
theorem c3_progress_hook_characterization (d : HookSample) (p : DownloadProgress) :
    (d.status = "downloading" → (truthy d.total_bytes && truthy d.downloaded_bytes) = true →
      (hookUpdate d p).progress
        = min 90 ((d.downloaded_bytes.getD 0 / d.total_bytes.getD 0) * 100)) ∧
    (d.status = "downloading" → (truthy d.total_bytes && truthy d.downloaded_bytes) = false →
      truthy d.total_bytes_estimate = false →
      (hookUpdate d p).progress = p.progress) ∧
    (d.status = "finished" → (hookUpdate d p).progress = 95) := by
  refine ⟨?_, ?_, ?_⟩
  · intro h1 h2
    by_cases hsp : truthy d.speed <;> simp [hookUpdate, h1, h2, hsp]
  · intro h1 h2 h3
    by_cases hsp : truthy d.speed <;> simp [hookUpdate, h1, h2, h3, hsp]
  · intro h1
    have h2 : ¬(d.status = "downloading") := by
      rw [h1]
      decide
    simp [hookUpdate, h1, h2]

def c3Stored : DownloadProgress := { initProgress with status := "downloading", progress := 50 }

/-- Witness for C3 (amended): a `downloading` sample of 10 bytes out of 100
applied to a record whose stored percentage is 50 stores
`min 90 (10 / 100 * 100)` — computed from the sample alone. -/
theorem c3_progress_witness :
    c3Hook10.status = "downloading" ∧
    (truthy c3Hook10.total_bytes && truthy c3Hook10.downloaded_bytes) = true ∧
    (hookUpdate c3Hook10 c3Stored).progress
      = min 90 ((c3Hook10.downloaded_bytes.getD 0 / c3Hook10.total_bytes.getD 0) * 100) :=
  ⟨rfl, by decide,
   (c3_progress_hook_characterization c3Hook10 c3Stored).1 rfl (by decide)⟩

def c4Trace : List Step := c2Trace ++ [Step.cancel "j"]

/-- C4 counterexample: after a job completes, `cancel_download` sets its
state to `cancelled` but leaves `file_path` populated (lines 470-471 touch
only `status` and `message`), so a record exists whose artifact path is
non-empty while its state is not `completed` — the claimed equivalence is
false. -/
theorem c4_artifact_counterexample :
    Option.map (fun p : DownloadProgress => (p.status, p.file_path))
      (lookupD ((c4Trace.foldl applyStep initState).registry) "j")
      = some ("cancelled", some "downloads/T_j.mp4") ∧
    some "downloads/T_j.mp4" ≠ (none : Option String) ∧
    ("cancelled" : String) ≠ "completed" :=
  ⟨by decide, by decide, by decide⟩

/-- C4 (amended): in every reachable state, a non-empty `file_path` implies
the state is `completed` or `cancelled` (the `cancelled` case arising from a
`CancelJob` after completion, which does not clear the path), and the state
`completed` still implies a non-empty `file_path`; the claimed `if and only
if` with `completed` alone does not hold. -/
theorem c4_artifact_invariant (steps : List Step) (id : String) (p : DownloadProgress)
    (hm : (id, p) ∈ (steps.foldl applyStep initState).registry) :
    (p.file_path ≠ none → p.status = "completed" ∨ p.status = "cancelled") ∧
    (p.status = "completed" → p.file_path ≠ none) := by
  have hinv : InvRecord ((steps.foldl applyStep initState).workers id) p :=
    invState_foldl steps initState invState_initState (id, p) hm
  cases hW : (steps.foldl applyStep initState).workers id with
  | idle =>
    rw [hW] at hinv
    exact hinv.elim
  | finished =>
    rw [hW] at hinv
    exact ⟨fun hh => (hinv.2.1 hh).2, fun hh => hinv.2.2.1 hh⟩
  | spawned =>
    rw [hW] at hinv
    exact ⟨fun hh => absurd hinv.1 hh, fun hh => absurd hh hinv.2.2⟩
  | started =>
    rw [hW] at hinv
    exact ⟨fun hh => absurd hinv.1 hh, fun hh => absurd hh hinv.2.2⟩
  | hasTemp =>
    rw [hW] at hinv
    exact ⟨fun hh => absurd hinv.1 hh, fun hh => absurd hh hinv.2.2⟩
  | downloading =>
    rw [hW] at hinv
    exact ⟨fun hh => absurd hinv.1 hh, fun hh => absurd hh hinv.2.2⟩

def c4Record : DownloadProgress := cancelUpdate c2Record

/-- Witness for C4 (amended) at the cancelled-after-completed record reached
by `c4Trace`. -/
theorem c4_artifact_witness :
    ("j", c4Record) ∈ (c4Trace.foldl applyStep initState).registry ∧
    (c4Record.file_path ≠ none → c4Record.status = "completed" ∨
      c4Record.status = "cancelled") ∧
    (c4Record.status = "completed" → c4Record.file_path ≠ none) :=
  ⟨by decide, c4_artifact_invariant c4Trace "j" c4Record (by decide)⟩

/-- C5 counterexample: after a job completes (storing `progress = 100`), a
`CancelJob` changes its state to `cancelled` while leaving `progress` at
100, so a record exists with `progress = 100` whose state is not
`completed` — the claimed equivalence is false. -/
theorem c5_progress100_counterexample :
    Option.map (fun p : DownloadProgress => (p.status, p.progress))
      (lookupD ((c4Trace.foldl applyStep initState).registry) "j")
      = some ("cancelled", 100) ∧
    ("cancelled" : String) ≠ "completed" :=
  ⟨by decide, by decide⟩

/-- C5 (amended): in every reachable state, `progress = 100` implies the
state is `completed` or `cancelled` (the latter arising from a `CancelJob`
after completion, which leaves `progress` at 100), and the state
`completed` still implies `progress = 100`; the claimed `if and only if`
with `completed` alone does not hold. -/
theorem c5_progress100_invariant (steps : List Step) (id : String) (p : DownloadProgress)
    (hm : (id, p) ∈ (steps.foldl applyStep initState).registry) :
    (p.progress = 100 → p.status = "completed" ∨ p.status = "cancelled") ∧
    (p.status = "completed" → p.progress = 100) := by
  have hinv : InvRecord ((steps.foldl applyStep initState).workers id) p :=
    invState_foldl steps initState invState_initState (id, p) hm
  cases hW : (steps.foldl applyStep initState).workers id with
  | idle =>
    rw [hW] at hinv
    exact hinv.elim
  | finished =>
    rw [hW] at hinv
    exact ⟨fun hh => (hinv.2.1 (hinv.2.2.2 hh)).2,
           fun hh => (hinv.2.1 (hinv.2.2.1 hh)).1⟩
  | spawned =>
    rw [hW] at hinv
    exact ⟨fun hh => absurd (hh ▸ hinv.2.1) (by norm_num),
           fun hh => absurd hh hinv.2.2⟩
  | started =>
    rw [hW] at hinv
    exact ⟨fun hh => absurd (hh ▸ hinv.2.1) (by norm_num),
           fun hh => absurd hh hinv.2.2⟩
  | hasTemp =>
    rw [hW] at hinv
    exact ⟨fun hh => absurd (hh ▸ hinv.2.1) (by norm_num),
           fun hh => absurd hh hinv.2.2⟩
  | downloading =>
    rw [hW] at hinv
    exact ⟨fun hh => absurd (hh ▸ hinv.2.1) (by norm_num),
           fun hh => absurd hh hinv.2.2⟩

/-- Witness for C5 (amended) at the cancelled-after-completed record reached
by `c4Trace`. -/
theorem c5_progress100_witness :
    ("j", c4Record) ∈ (c4Trace.foldl applyStep initState).registry ∧
    (c4Record.progress = 100 → c4Record.status = "completed" ∨
      c4Record.status = "cancelled") ∧
    (c4Record.status = "completed" → c4Record.progress = 100) :=
  ⟨by decide, c5_progress100_invariant c4Trace "j" c4Record (by decide)⟩

def c7Attempts : Nat → Except String ℚ := fun i =>
  if i = 0 then Except.error "network failure 1"
  else if i = 1 then Except.error "network failure 2"
  else Except.error "network failure 3"

/-- C7 counterexample: `download_video_thread` contains no retry loop around
the transfer (line 324 runs once inside a single `try`), so with a download
operation that would fail three times with distinct messages, the job ends
in `error` carrying the *first* attempt's message — the second and third
attempts never happen, contradicting the claimed three attempts with 2-10 s
delays and the 3rd attempt's message. -/
theorem c7_download_retry_counterexample :
    workerRunSteps "j" "T" 0 c7Attempts
      = [Step.workerInit "j" 0, Step.mkTemp "j", Step.fetchInfo "j" "T",
         Step.raiseError "j" "network failure 1"] ∧
    Option.map (fun p : DownloadProgress => (p.status, p.message))
      (lookupD (((workerRunSteps "j" "T" 0 c7Attempts).foldl applyStep
        (applyStep initState (Step.submit "j"))).registry) "j")
      = some ("error", "Error: network failure 1") ∧
    ("Error: network failure 1" : String) ≠ "Error: network failure 3" :=
  ⟨by decide, by decide, by decide⟩

/-- C7 (amended): the Worker invokes the download operation exactly once —
the run of `download_video_thread` depends only on the outcome of attempt 0,
with no inter-attempt delay (per-fragment retries are delegated to the
external downloader's configuration, lines 301-302) — and when that single
attempt fails with message `e`, the job ends in state `error` with error
message `e`. -/
theorem c7_single_attempt (id title : String) (t : ℚ) (e : String)
    (attempts atts2 : Nat → Except String ℚ)
    (h0 : attempts 0 = Except.error e) (heq : atts2 0 = attempts 0) :
    workerRunSteps id title t atts2 = workerRunSteps id title t attempts ∧
    Option.map (fun p : DownloadProgress => (p.status, p.error, p.message))
      (lookupD (((workerRunSteps id title t attempts).foldl applyStep
        (applyStep initState (Step.submit id))).registry) id)
      = some ("error", some e, "Error: " ++ e) := by
  constructor
  · simp only [workerRunSteps, heq]
  · simp [workerRunSteps, h0, applyStep, initState, start_download_register, dictInsert,
      dictUpd, lookupD, updFn, initUpdate, fetchUpdate, errorUpdate, keyNe, initProgress]

def c7AttemptsW : Nat → Except String ℚ := fun _ => Except.error "boom"

/-- Witness for C7 (amended) at a concrete failing operation. -/
theorem c7_single_attempt_witness :
    c7AttemptsW 0 = Except.error "boom" ∧
    Option.map (fun p : DownloadProgress => (p.status, p.error, p.message))
      (lookupD (((workerRunSteps "j" "T" 0 c7AttemptsW).foldl applyStep
        (applyStep initState (Step.submit "j"))).registry) "j")
      = some ("error", some "boom", "Error: " ++ "boom") :=
  ⟨rfl,
   (c7_single_attempt "j" "T" 0 "boom" c7AttemptsW c7AttemptsW rfl rfl).2⟩

def c8Trace : List Step :=
  [Step.submit "j", Step.workerInit "j" 0, Step.mkTemp "j", Step.fetchInfo "j" "T",
   Step.raiseError "j" "boom"]

/-- C8 counterexample: the worker's exception handler (lines 353-357) only
writes `status`, `error` and `message`; it never deletes the private
temporary directory created at line 270 (only the success path removes it,
line 351).  After a failed download the job is in `error`, yet the
temporary directory — together with any partial file inside it — remains on
disk, contradicting the claim that it is deleted. -/
theorem c8_error_cleanup_counterexample :
    Option.map (fun p : DownloadProgress => (p.status, p.error, p.message))
      (lookupD ((c8Trace.foldl applyStep initState).registry) "j")
      = some ("error", some "boom", "Error: boom") ∧
    tempDirPath "j" ∈ (c8Trace.foldl applyStep initState).disk :=
  ⟨by decide, by decide⟩

/-- C8 (amended): on an exception with message `e`, the worker records the
final error message in the record (`error := e`, `message := "Error: " ++ e`)
but performs no filesystem cleanup at all: the disk is unchanged, so the
temporary directory (if created) remains, while nothing is ever moved into
the durable downloads folder on the error path. -/
theorem c8_error_path (s : SysState) (id e : String) (p : DownloadProgress)
    (hw : s.workers id = .started ∨ s.workers id = .hasTemp ∨
      s.workers id = .downloading)
    (hp : lookupD s.registry id = some p) :
    lookupD (applyStep s (Step.raiseError id e)).registry id = some (errorUpdate e p) ∧
    (errorUpdate e p).status = "error" ∧
    (errorUpdate e p).error = some e ∧
    (errorUpdate e p).message = "Error: " ++ e ∧
    (applyStep s (Step.raiseError id e)).disk = s.disk := by
  simp only [applyStep]
  rw [if_pos hw]
  refine ⟨?_, rfl, rfl, rfl, rfl⟩
  rw [lookupD_dictUpd, if_pos rfl, hp]
  rfl

def c8State : SysState :=
  [Step.submit "j", Step.workerInit "j" 0, Step.mkTemp "j",
   Step.fetchInfo "j" "T"].foldl applyStep initState

/-- Witness for C8 (amended) at a concrete state whose transfer is in
flight; the temporary directory is on disk and stays there. -/
theorem c8_error_path_witness :
    tempDirPath "j" ∈ c8State.disk ∧
    lookupD (applyStep c8State (Step.raiseError "j" "boom")).registry "j"
      = some (errorUpdate "boom" (fetchUpdate "T" (initUpdate 0 initProgress))) ∧
    (applyStep c8State (Step.raiseError "j" "boom")).disk = c8State.disk :=
  ⟨by decide,
   (c8_error_path c8State "j" "boom" (fetchUpdate "T" (initUpdate 0 initProgress))
     (by decide) (by decide)).1,
   (c8_error_path c8State "j" "boom" (fetchUpdate "T" (initUpdate 0 initProgress))
     (by decide) (by decide)).2.2.2.2⟩

/-- C10: `start_download` registers the fresh record (initial state
`pending`, `progress` 0) at line 396, before the worker thread is started
at lines 399-404 — in the step model the registered-but-not-yet-started
state is `start_download_register`, on which `get_progress` already returns
the pending snapshot — and the record stays present under every later step
that is not an expiry of this id and not a sweep, so `GetProgress` with the
returned id never yields `NotFound` before expiry removes the record. -/
theorem c10_submit_registration (s : SysState) (id : String) (steps : List Step)
    (hok : ∀ st ∈ steps, st ≠ Step.expire id ∧ ∀ q : ℚ, st ≠ Step.sweep q) :
    get_progress (start_download_register s.registry id) id = some
      { status := "pending"
        progress := 0
        message := ""
        current_step := ""
        title := ""
        size_bytes := some 0
        error := none
        download_id := id
        file_path := none } ∧
    get_progress ((steps.foldl applyStep (applyStep s (Step.submit id))).registry) id
      ≠ none := by
  constructor
  · have hl : lookupD (start_download_register s.registry id) id = some initProgress := by
      rw [start_download_register, lookupD_dictInsert, if_pos rfl]
    rw [get_progress_eq_some _ id initProgress hl]
    rfl
  · have hsome : (lookupD (applyStep s (Step.submit id)).registry id).isSome := by
      simp only [applyStep, start_download_register]
      rw [lookupD_dictInsert, if_pos rfl]
      rfl
    obtain ⟨q, hq⟩ := Option.isSome_iff_exists.mp
      (isSome_lookup_foldl steps (applyStep s (Step.submit id)) id hok hsome)
    rw [get_progress_eq_some _ id q hq]
    exact fun hh => Option.noConfusion hh

/-- Witness for C10 at a concrete submission followed by a `CancelJob`. -/
theorem c10_submit_witness :
    (∀ st ∈ [Step.cancel "j"], st ≠ Step.expire "j" ∧ ∀ q : ℚ, st ≠ Step.sweep q) ∧
    get_progress ((([Step.cancel "j"]).foldl applyStep
      (applyStep initState (Step.submit "j"))).registry) "j" ≠ none :=
  ⟨fun st hst => by
    rcases List.mem_singleton.mp hst with rfl
    exact ⟨by decide, fun q h => Step.noConfusion h⟩,
   (c10_submit_registration initState "j" [Step.cancel "j"]
     (fun st hst => by
       rcases List.mem_singleton.mp hst with rfl
       exact ⟨by decide, fun q h => Step.noConfusion h⟩)).2⟩
